import Mathlib

/-!
Verification of the month-download tool `descargas_universal_win.py`.

The program's pure/string-level logic is shallowly embedded here on
`List Char` (one list element per character).  Browser, network and
filesystem effects are abstracted into explicit environment records
whose fields are the values the program reads from the outside world;
the control flow of each embedded function follows the Python source
line by line.
-/

namespace Descargas

/-! ### Python/JS string primitives used by the source -/

/-- Both-ends strip by a character predicate: models Python `str.strip(...)`
and JS `String.trim()` (the latter with the whitespace predicate). -/
def stripP (p : Char → Bool) (l : List Char) : List Char :=
  ((l.dropWhile p).reverse.dropWhile p).reverse

/-- Python `str.strip()` with no argument: whitespace from both ends. -/
def stripWS (l : List Char) : List Char :=
  stripP Char.isWhitespace l

/-- Python `str.strip(chars)`: strip any of the given characters from both ends. -/
def stripChars (bad : List Char) (l : List Char) : List Char :=
  stripP (fun c => bad.contains c) l

/-- Python `str.upper()` (ASCII fragment). -/
def toUpperL (l : List Char) : List Char :=
  l.map Char.toUpper

/-- Python `str.lower()` (ASCII fragment). -/
def toLowerL (l : List Char) : List Char :=
  l.map Char.toLower

/-- `startsWithL pat l` models Python `l.startswith(pat)`. -/
def startsWithL : List Char → List Char → Bool
  | [], _ => true
  | _ :: _, [] => false
  | a :: as, b :: bs => a = b && startsWithL as bs

/-- `endsWithL pat l` models Python `l.endswith(pat)`. -/
def endsWithL (pat l : List Char) : Bool :=
  startsWithL pat.reverse l.reverse

/-- `containsSub pat l` models Python `pat in l` (contiguous substring). -/
def containsSub (pat : List Char) : List Char → Bool
  | [] => startsWithL pat []
  | l@(_ :: t) => startsWithL pat l || containsSub pat t

/-! ### Slug Encoder (`slugify`, source lines 42-44) -/

/-- Python `\w` with `re.UNICODE`: alphanumerics and underscore; non-ASCII
letters are approximated by the whole non-ASCII plane (the source never
branches on the exact Unicode word class). -/
def isWordChar (c : Char) : Bool :=
  c.isAlphanum || c = '_' || decide (127 < c.toNat)

/-- A character that the substitution `re.sub(r"[^\w.\-]+", "_", _)` keeps. -/
def keepChar (c : Char) : Bool :=
  isWordChar c || c = '.' || c = '-'

/-- One pass of `re.sub(r"[^\w.\-]+", "_", s)`: every maximal run of
non-kept characters becomes a single underscore.  The flag records
whether we are inside such a run. -/
def subSafeAux : List Char → Bool → List Char
  | [], _ => []
  | c :: cs, inRun =>
      if keepChar c then c :: subSafeAux cs false
      else if inRun then subSafeAux cs true
      else '_' :: subSafeAux cs true

/-- `re.sub(r"[^\w.\-]+", "_", s)`. -/
def subSafe (l : List Char) : List Char :=
  subSafeAux l false

/-- Source lines 42-44:
`safe = re.sub(r"[^\w.\-]+", "_", name.strip(), flags=re.UNICODE).strip("._")`;
`return safe or "documento.pdf"`. -/
def slugify (name : List Char) : List Char :=
  let safe := stripChars ['.', '_'] (subSafe (stripWS name))
  if safe = [] then "documento.pdf".data else safe

/-! ### Decimal formatting (`f"{idx:03d}"`) -/

/-- The decimal digit character of `n % 10`. -/
def digitChar (n : Nat) : Char :=
  Char.ofNat (48 + n % 10)

/-- Decimal digits of `n`, most significant first, computed with explicit
fuel so that the definition is structural and kernel-evaluable. -/
def natReprAux : Nat → Nat → List Char
  | 0, _ => []
  | fuel + 1, n =>
      if n < 10 then [digitChar n]
      else natReprAux fuel (n / 10) ++ [digitChar n]

/-- Decimal representation of `n` (`str(n)` in Python). -/
def natRepr (n : Nat) : List Char :=
  natReprAux (n + 1) n

/-- Python `f"{n:03d}"`: zero-pad the decimal form to width 3. -/
def pad3 (n : Nat) : List Char :=
  List.replicate (3 - (natRepr n).length) '0' ++ natRepr n

/-- `int(s)` on a digit string. -/
def digitsToNat (l : List Char) : Nat :=
  l.foldl (fun a c => a * 10 + (c.toNat - 48)) 0

/-! ### Summary Aggregator (`summarize_log`, source lines 47-62) -/

/-- One data row of the ledger CSV as read back by `csv.DictReader`:
the `estado` and `archivo` fields (a missing field reads back as `""`). -/
structure CsvRow where
  estado : List Char
  archivo : List Char
deriving DecidableEq

/-- The bucket key of an OK row, source line 58:
`re.split(r"\d", name, maxsplit=1)[0].strip("-_ ").upper()`, with the
empty result replaced by `"OTRO"` on line 59. -/
def bucketOf (archivo : List Char) : List Char :=
  let nm := stripWS archivo
  let p := toUpperL (stripChars ['-', '_', ' '] (nm.takeWhile (fun c => !c.isDigit)))
  if p = [] then "OTRO".data else p

/-- `collections.Counter` update `counter[k] += 1`, keeping first-insertion
order as Python dicts do. -/
def counterAdd (k : List Char) : List (List Char × Nat) → List (List Char × Nat)
  | [] => [(k, 1)]
  | (k2, n) :: rest =>
      if k2 = k then (k2, n + 1) :: rest else (k2, n) :: counterAdd k rest

/-- The `estado` field as the source normalises it on line 54:
`(row.get("estado") or "").strip().upper()`. -/
def normEstado (r : CsvRow) : List Char :=
  toUpperL (stripWS r.estado)

/-- The reader loop of `summarize_log`, accumulating
`(ok_total, error_total, prefixes)`. -/
def summarizeAux (acc : Nat × Nat × List (List Char × Nat)) :
    List CsvRow → Nat × Nat × List (List Char × Nat)
  | [] => acc
  | r :: rows =>
      let st := normEstado r
      if st = "OK".data then
        summarizeAux (acc.1 + 1, acc.2.1, counterAdd (bucketOf r.archivo) acc.2.2) rows
      else if st = "ERROR".data then
        summarizeAux (acc.1, acc.2.1 + 1, acc.2.2) rows
      else summarizeAux acc rows

/-- Source lines 47-62: `summarize_log` over the ledger's data rows,
returning `(ok_total, error_total, prefixes)`. -/
def summarize_log (rows : List CsvRow) : Nat × Nat × List (List Char × Nat) :=
  summarizeAux (0, 0, []) rows

/-! ### Result Paginator (`click_next_result` lines 153-166,
`move_next_distinct` lines 168-189) -/

/-- What one candidate "next" selector looks like when probed:
`loc.count() == 0`, the `class` attribute (`""` when absent), and whether
the click call succeeds.  An exception while probing `count` or the
attribute behaves like a skip and is folded into these fields. -/
structure Candidate where
  countZero : Bool
  classAttr : List Char
  clickOk : Bool
deriving DecidableEq

/-- The per-selector body of `click_next_result`: skip when absent, skip
when `"disabled" in cls.lower()`, otherwise the click's outcome. -/
def candidateClicks (c : Candidate) : Bool :=
  if c.countZero then false
  else if containsSub "disabled".data (toLowerL c.classAttr) then false
  else c.clickOk

/-- Source lines 153-166: try each candidate selector in order and return
`true` at the first successful click, else `false`. -/
def click_next_result : List Candidate → Bool
  | [] => false
  | c :: cs => if candidateClicks c then true else click_next_result cs

/-- The page as the Paginator observes it: for the `i`-th attempt of the
retry loop, the candidate "next" controls present, and the successive
`textContent` values of `resultForm:pagText2` seen while
`wait_for_function` polls its predicate (an absent element or empty text
reads as `[]`). -/
structure PageBehavior where
  cands : Nat → List Candidate
  waitKeys : Nat → List (List Char)

/-- The polled predicate of source lines 174-181:
`!!el && el.textContent && el.textContent.trim() !== prev`; the wait
resolves at the first polled value satisfying it, else times out. -/
def findChanged (prev : List Char) : List (List Char) → Option (List Char)
  | [] => none
  | w :: ws =>
      if w ≠ [] ∧ stripWS w ≠ prev then some w else findChanged prev ws

/-- The `for _ in range(3)` loop of `move_next_distinct` (source lines
168-189), also counting how many times `click_next_result` is invoked.
`n` is the remaining attempts, `i` the attempt number. -/
def mndAux (pb : PageBehavior) (key : List Char) : Nat → Nat → Bool × Nat
  | 0, _ => (false, 0)
  | n + 1, i =>
      if click_next_result (pb.cands i) then
        if key ≠ [] ∧ (findChanged key (pb.waitKeys i)).isSome then (true, 1)
        else
          let r := mndAux pb key n (i + 1)
          (r.1, r.2 + 1)
      else
        let r := mndAux pb key n (i + 1)
        (r.1, r.2 + 1)

/-- Source lines 168-189: the Paginator's advance operation. -/
def move_next_distinct (pb : PageBehavior) (key : List Char) : Bool :=
  (mndAux pb key 3 0).1

/-- How many times the advance operation invoked `click_next_result`. -/
def mndClicks (pb : PageBehavior) (key : List Char) : Nat :=
  (mndAux pb key 3 0).2

/-! ### Document Resolver (`save_download`, source lines 191-222) -/

/-- The outside world as `save_download` observes it for one row:
the stripped `href` attribute (`[]` when absent or unreadable), the
direct fetch's fate, the filename component of the fetched URL's path
(`Path(unquote(urlparse(full).path)).name`), and the triggered-download
event's suggested filename (`none` when no download event arrives in
time). -/
structure DlEnv where
  href : List Char
  fetchFails : Bool
  respOk : Bool
  body : List Char
  urlName : List Char
  download : Option (List Char)
deriving DecidableEq

/-- `f"documento_{idx:03d}.pdf"`. -/
def defaultName (idx : Nat) : List Char :=
  "documento_".data ++ pad3 idx ++ ".pdf".data

/-- `pathlib` stem/suffix split of a filename: the suffix is `name[i:]`
for the last dot at `0 < i < len - 1`, else empty. -/
def splitExt (name : List Char) : List Char × List Char :=
  let r := name.reverse
  let pre := r.takeWhile (fun c => c ≠ '.')
  match r.dropWhile (fun c => c ≠ '.') with
  | '.' :: rest2 =>
      if pre = [] ∨ rest2 = [] then (name, [])
      else (rest2.reverse, '.' :: pre.reverse)
  | _ => (name, [])

/-- The collision handling of source lines 204-206 and 216-218:
`dst = output_dir / fn; if dst.exists(): dst = output_dir /
f"{dst.stem}_{idx:03d}{dst.suffix}"`.  The directory contents are the
list `fs` of existing file names. -/
def resolveDst (fs : List (List Char)) (fn : List Char) (idx : Nat) : List Char :=
  if fn ∈ fs then
    let p := splitExt fn
    p.1 ++ '_' :: (pad3 idx ++ p.2)
  else fn

/-- Strategy 2 of `save_download` (source lines 211-222): the
triggered-download fallback.  `fn = slugify(d.suggested_filename or
f"documento_{idx:03d}.pdf")`; no download event means `None`. -/
def strat2 (fs : List (List Char)) (e : DlEnv) (idx : Nat) : Option (List Char) :=
  match e.download with
  | none => none
  | some s =>
      let fn := slugify (if s = [] then defaultName idx else s)
      some (resolveDst fs fn idx)

/-- Source lines 191-222: the Document Resolver.  Strategy 1 (direct
fetch) runs when the href is a real address and its response is ok with
a `%PDF` body; anything else falls through to strategy 2.  Returns the
written destination file name, or `none` when both strategies fail. -/
def save_download (fs : List (List Char)) (e : DlEnv) (idx : Nat) :
    Option (List Char) :=
  if e.href ≠ [] ∧ startsWithL "javascript".data (toLowerL e.href) = false then
    if e.fetchFails = false ∧ e.respOk = true ∧
        startsWithL "%PDF".data e.body = true then
      let n := if e.urlName = [] then defaultName idx else e.urlName
      let fn := slugify (if endsWithL ".pdf".data (toLowerL n) then n
                         else n ++ ".pdf".data)
      some (resolveDst fs fn idx)
    else strat2 fs e idx
  else strat2 fs e idx

/-- One month job's Resolver calls at indices `idx, idx+1, ...`, threading
the directory contents: each successful `save_download` adds its written
file name.  Returns the written names in order. -/
def runJob (fs : List (List Char)) : List DlEnv → Nat → List (List Char)
  | [], _ => []
  | e :: es, idx =>
      match save_download fs e idx with
      | some dst => dst :: runJob (dst :: fs) es (idx + 1)
      | none => runJob fs es (idx + 1)

/-! ### Month Runner loop (`run_download_month`, source lines 244-272) -/

/-- The regex body `(\d+)\s*/\s*(\d+)` matched at the head of the list:
a maximal digit run, optional whitespace, `/`, optional whitespace, a
digit run; greedy digits never backtrack here because a shorter run
leaves a digit where `/` is required. -/
def matchPosAt (l : List Char) : Option (Nat × Nat) :=
  let d1 := l.takeWhile Char.isDigit
  if d1 = [] then none
  else
    match (l.dropWhile Char.isDigit).dropWhile Char.isWhitespace with
    | '/' :: r2 =>
        let d2 := (r2.dropWhile Char.isWhitespace).takeWhile Char.isDigit
        if d2 = [] then none else some (digitsToNat d1, digitsToNat d2)
    | _ => none

/-- `re.search(r"(\d+)\s*/\s*(\d+)", s)` with `int()` of both groups
(source lines 265-266): the leftmost match wins. -/
def parsePos : List Char → Option (Nat × Nat)
  | [] => none
  | c :: rest =>
      match matchPosAt (c :: rest) with
      | some p => some p
      | none => parsePos rest

/-- One ledger record as written on source lines 259 and 262. -/
structure Record where
  indice : Nat
  estado : List Char
  archivo : List Char
  detalle : List Char
deriving DecidableEq

/-- The environment of one iteration of the Month Runner loop: the key
read at the top of the loop, the Resolver's world, the position text
re-read after the ledger append, and the page the Paginator sees. -/
structure RowEnv where
  key : List Char
  dl : DlEnv
  posAfter : List Char
  pager : PageBehavior

/-- The ledger row appended for one iteration (source lines 254-262):
`[idx, "OK", saved.name, ""]` or `[idx, "ERROR", "", "Sin PDF o timeout"]`. -/
def mkRecord (fs : List (List Char)) (e : RowEnv) (idx : Nat) : Record :=
  match save_download fs e.dl idx with
  | some dst => ⟨idx, "OK".data, dst, []⟩
  | none => ⟨idx, "ERROR".data, [], "Sin PDF o timeout".data⟩

/-- Source lines 244-272: the `while True` loop of `run_download_month`,
with explicit fuel for totality.  Returns the appended ledger records,
the number of `move_next_distinct` invocations from this point on, and
whether the loop exited by itself (`false` only when fuel ran out).
The loop processes the row, appends the record, then checks the re-read
position: `if m and int(m.group(1)) >= int(m.group(2)): break`, and only
otherwise calls `move_next_distinct`. -/
def run_month_loop (env : Nat → RowEnv) :
    Nat → Nat → List (List Char) → List Record × Nat × Bool
  | 0, _, _ => ([], 0, false)
  | fuel + 1, idx, fs =>
      let e := env idx
      let rcd := mkRecord fs e idx
      let fs2 := match save_download fs e.dl idx with
        | some dst => dst :: fs
        | none => fs
      let stop := match parsePos e.posAfter with
        | some ct => decide (ct.2 ≤ ct.1)
        | none => false
      if stop then ([rcd], 0, true)
      else if move_next_distinct e.pager e.key then
        let r := run_month_loop env fuel (idx + 1) fs2
        (rcd :: r.1, r.2.1 + 1, r.2.2)
      else ([rcd], 1, true)

/-! ### Concrete environments used as test inputs -/

/-- A page whose single "next" candidate is present, enabled and clickable,
and whose wait immediately observes the position text "2 / 57". -/
def pbStep : PageBehavior :=
  ⟨fun _ => [⟨false, [], true⟩], fun _ => ["2 / 57".data]⟩

/-- A page on which no "next" candidate can be activated: the first is
absent, the second carries a disabled class, the third's click fails. -/
def pbStuck : PageBehavior :=
  ⟨fun _ => [⟨true, [], false⟩,
    ⟨false, "ui-paginator-next ui-state-disabled".data, true⟩,
    ⟨false, [], false⟩], fun _ => ["2 / 9".data]⟩

/-- A Resolver world with no usable href whose fallback download suggests
"scan.tiff". -/
def dlScan : DlEnv := ⟨[], false, false, [], [], some "scan.tiff".data⟩

/-- A Resolver world whose direct fetch answers ok with an HTML body (no
PDF magic bytes) and whose fallback download suggests "respaldo.pdf". -/
def dlHtml : DlEnv :=
  ⟨"/doc/archivo.pdf".data, false, true, "<html>".data, "archivo.pdf".data,
    some "respaldo.pdf".data⟩

/-- Fallback-download worlds suggesting the names of the collision scenario. -/
def dlA : DlEnv := ⟨[], false, false, [], [], some "a.pdf".data⟩

/-- Fallback-download world suggesting a name that already carries an
index-style suffix. -/
def dlA003 : DlEnv := ⟨[], false, false, [], [], some "a_003.pdf".data⟩

/-- Fallback-download world suggesting "acta.pdf". -/
def dlActa : DlEnv := ⟨[], false, false, [], [], some "acta.pdf".data⟩

/-- A Month Runner environment whose page reports position "1 / 1" on
every read: a single-result page. -/
def envSingle : Nat → RowEnv := fun _ => ⟨"1 / 1".data, dlActa, "1 / 1".data, pbStuck⟩

end Descargas

namespace Descargas

lemma keep_of_mem_subSafeAux {c : Char} :
    ∀ (l : List Char) (b : Bool), c ∈ subSafeAux l b → keepChar c = true := by
  intro l
  induction l with
  | nil => intro b h; simp [subSafeAux] at h
  | cons x xs ih =>
      intro b h
      simp only [subSafeAux] at h
      split at h
      · rcases List.mem_cons.mp h with h1 | h1
        · subst h1; assumption
        · exact ih _ h1
      · split at h
        · exact ih _ h
        · rcases List.mem_cons.mp h with h1 | h1
          · subst h1; decide
          · exact ih _ h1

lemma mem_of_mem_stripP {p : Char → Bool} {l : List Char} {c : Char}
    (h : c ∈ stripP p l) : c ∈ l := by
  unfold stripP at h
  rw [List.mem_reverse] at h
  have h2 : c ∈ (l.dropWhile p).reverse := (List.dropWhile_sublist p).subset h
  rw [List.mem_reverse] at h2
  exact (List.dropWhile_sublist p).subset h2

lemma stripP_decompose (p : Char → Bool) (l : List Char) :
    l.dropWhile p = stripP p l ++ ((l.dropWhile p).reverse.takeWhile p).reverse := by
  unfold stripP
  rw [← List.reverse_append, List.takeWhile_append_dropWhile, List.reverse_reverse]

lemma head?_stripP {p : Char → Bool} {l : List Char} {c : Char}
    (h : (stripP p l).head? = some c) : p c = false := by
  have hd1 : (l.dropWhile p).head? = some c := by
    rw [stripP_decompose p l, List.head?_append, h]
    rfl
  have key := List.head?_dropWhile_not p l
  rw [hd1] at key
  exact key

lemma getLast?_stripP {p : Char → Bool} {l : List Char} {c : Char}
    (h : (stripP p l).getLast? = some c) : p c = false := by
  unfold stripP at h
  rw [List.getLast?_reverse] at h
  have key := List.head?_dropWhile_not p (l.dropWhile p).reverse
  rw [h] at key
  exact key

lemma slugify_eq (s : List Char) :
    slugify s = if stripChars ['.', '_'] (subSafe (stripWS s)) = []
      then "documento.pdf".data else stripChars ['.', '_'] (subSafe (stripWS s)) := rfl

lemma slugify_ne_nil (s : List Char) : slugify s ≠ [] := by
  rw [slugify_eq]
  split
  · decide
  · assumption

lemma keep_of_mem_slugify {s : List Char} {c : Char} (h : c ∈ slugify s) :
    keepChar c = true := by
  rw [slugify_eq] at h
  split at h
  · have hall : ∀ x ∈ "documento.pdf".data, keepChar x = true := by decide
    exact hall c h
  · exact keep_of_mem_subSafeAux _ false (mem_of_mem_stripP h)

lemma head?_slugify_not_bad {s : List Char} {c : Char}
    (h : (slugify s).head? = some c) : c ≠ '.' ∧ c ≠ '_' := by
  rw [slugify_eq] at h
  split at h
  · have hd : ("documento.pdf".data).head? = some 'd' := by decide
    rw [hd] at h
    injection h with h
    subst h
    decide
  · have h2 := head?_stripP (p := fun x => List.contains ['.', '_'] x) h
    constructor <;> (intro he; subst he; exact absurd h2 (by decide))

lemma getLast?_slugify_not_bad {s : List Char} {c : Char}
    (h : (slugify s).getLast? = some c) : c ≠ '.' ∧ c ≠ '_' := by
  rw [slugify_eq] at h
  split at h
  · have hd : ("documento.pdf".data).getLast? = some 'f' := by decide
    rw [hd] at h
    injection h with h
    subst h
    decide
  · have h2 := getLast?_stripP (p := fun x => List.contains ['.', '_'] x) h
    constructor <;> (intro he; subst he; exact absurd h2 (by decide))

/-- Claim C10: the Slug Encoder is total and returns a nonempty name of
word characters, dots and hyphens only, with no leading or trailing dot
or underscore; when sanitisation leaves nothing it returns the fixed
default "documento.pdf". -/
theorem claim_C10_slugify_total_safe (s : List Char) :
    slugify s ≠ [] ∧
    (∀ c ∈ slugify s, keepChar c = true) ∧
    (∀ c, (slugify s).head? = some c → c ≠ '.' ∧ c ≠ '_') ∧
    (∀ c, (slugify s).getLast? = some c → c ≠ '.' ∧ c ≠ '_') ∧
    (stripChars ['.', '_'] (subSafe (stripWS s)) = [] →
      slugify s = "documento.pdf".data) := by
  refine ⟨slugify_ne_nil s, fun c hc => keep_of_mem_slugify hc,
    fun c hc => head?_slugify_not_bad hc, fun c hc => getLast?_slugify_not_bad hc, ?_⟩
  intro hempty
  rw [slugify_eq, if_pos hempty]

/-- Claim C10 witness: a pure-punctuation name slugs to the fixed default,
and an ordinary name slugs to a nonempty result. -/
theorem claim_C10_witness :
    slugify "  ??? ".data = "documento.pdf".data ∧ slugify "Hola-1.2!".data ≠ [] :=
  ⟨(claim_C10_slugify_total_safe ("  ??? ".data)).2.2.2.2 (by decide),
   (claim_C10_slugify_total_safe ("Hola-1.2!".data)).1⟩

/-! ### Paginator claims -/

lemma findChanged_sound {prev w : List Char} :
    ∀ {l : List (List Char)}, findChanged prev l = some w →
      w ∈ l ∧ w ≠ [] ∧ stripWS w ≠ prev := by
  intro l
  induction l with
  | nil => intro h; simp [findChanged] at h
  | cons x xs ih =>
      intro h
      simp only [findChanged] at h
      split at h
      · rename_i hcond
        injection h with h
        subst h
        exact ⟨List.mem_cons_self x xs, hcond.1, hcond.2⟩
      · obtain ⟨hm, hne, hs⟩ := ih h
        exact ⟨List.mem_cons_of_mem _ hm, hne, hs⟩

lemma mndAux_true_exists {pb : PageBehavior} {key : List Char} :
    ∀ (n i : Nat), (mndAux pb key n i).1 = true →
      ∃ j, i ≤ j ∧ j < i + n ∧ key ≠ [] ∧
        (findChanged key (pb.waitKeys j)).isSome = true := by
  intro n
  induction n with
  | zero => intro i h; simp [mndAux] at h
  | succ n ih =>
      intro i h
      simp only [mndAux] at h
      split at h
      · split at h
        · rename_i hcond
          exact ⟨i, le_refl i, by omega, hcond.1, hcond.2⟩
        · obtain ⟨j, h1, h2, h3, h4⟩ := ih (i + 1) h
          exact ⟨j, by omega, by omega, h3, h4⟩
      · obtain ⟨j, h1, h2, h3, h4⟩ := ih (i + 1) h
        exact ⟨j, by omega, by omega, h3, h4⟩

/-- Claim C1: the Paginator's advance never returns true unless one of its
waits observed a position text whose trimmed value differs from the key
passed in — clicked next-control or not. -/
theorem claim_C1_advance_needs_distinct_key (pb : PageBehavior) (key : List Char)
    (h : move_next_distinct pb key = true) :
    ∃ j, j < 3 ∧ ∃ w ∈ pb.waitKeys j, w ≠ [] ∧ stripWS w ≠ key := by
  obtain ⟨j, h1, h2, h3, h4⟩ := mndAux_true_exists 3 0 h
  obtain ⟨w, hw⟩ := Option.isSome_iff_exists.mp h4
  obtain ⟨hm, hne, hs⟩ := findChanged_sound hw
  exact ⟨j, by omega, w, hm, hne, hs⟩

/-- Claim C1 witness: a run whose first click succeeds and whose wait sees
"2 / 57" against previous key "1 / 57" reports success, so some wait did
observe a changed key. -/
theorem claim_C1_witness :
    ∃ j, j < 3 ∧ ∃ w ∈ pbStep.waitKeys j, w ≠ [] ∧ stripWS w ≠ "1 / 57".data :=
  claim_C1_advance_needs_distinct_key pbStep ("1 / 57".data) (by decide)

lemma mndAux_empty_key (pb : PageBehavior) :
    ∀ (n i : Nat), (mndAux pb [] n i).1 = false := by
  intro n
  induction n with
  | zero => intro i; rfl
  | succ n ih =>
      intro i
      simp only [mndAux]
      split
      · split
        · rename_i hcond
          exact absurd rfl hcond.1
        · exact ih (i + 1)
      · exact ih (i + 1)

/-- Claim C9: called with an empty previous key (the position token was
unreadable), the advance operation returns false for every page behavior,
even one whose next-control clicks succeed and whose position token
changes: it never reports progress on an unknown key. -/
theorem claim_C9_empty_key_never_succeeds (pb : PageBehavior) :
    move_next_distinct pb [] = false :=
  mndAux_empty_key pb 3 0

/-- Claim C4 counterexample: on a page where every candidate selector is
absent, disabled or fails to click, the advance operation does return
false, but only after evaluating the activation attempt 3 times — it does
not return immediately without retrying the activation. -/
theorem claim_C4_counterexample :
    click_next_result (pbStuck.cands 0) = false ∧
    move_next_distinct pbStuck ("1 / 9".data) = false ∧
    mndClicks pbStuck ("1 / 9".data) = 3 ∧
    mndClicks pbStuck ("1 / 9".data) ≠ 1 := by
  decide

/-- Claim C4 as amended: when no next-control can be activated on any of
the three bounded attempts, the advance operation returns false, but it
retries the activation up to the attempt bound of 3 rather than returning
immediately after the first failed activation. -/
theorem claim_C4_amended_no_activation_retries (pb : PageBehavior) (key : List Char)
    (h : ∀ i, i < 3 → click_next_result (pb.cands i) = false) :
    move_next_distinct pb key = false ∧ mndClicks pb key = 3 := by
  have h0 := h 0 (by omega)
  have h1 := h 1 (by omega)
  have h2 := h 2 (by omega)
  unfold move_next_distinct mndClicks
  simp [mndAux, h0, h1, h2]

/-- Claim C4 amended witness: the stuck page activates nothing, and the
advance operation returns false after 3 activation attempts. -/
theorem claim_C4_amended_witness :
    move_next_distinct pbStuck ("3 / 9".data) = false ∧
    mndClicks pbStuck ("3 / 9".data) = 3 :=
  claim_C4_amended_no_activation_retries pbStuck ("3 / 9".data) (by decide)

/-! ### Summary Aggregator claims -/

lemma summarizeAux_count :
    ∀ (rows : List CsvRow),
      (∀ r ∈ rows, normEstado r = "OK".data ∨ normEstado r = "ERROR".data) →
      ∀ acc : Nat × Nat × List (List Char × Nat),
        (summarizeAux acc rows).1 + (summarizeAux acc rows).2.1 =
          acc.1 + acc.2.1 + rows.length := by
  intro rows
  induction rows with
  | nil => intro _ acc; simp [summarizeAux]
  | cons r rs ih =>
      intro hw acc
      have hr := hw r (List.mem_cons_self r rs)
      have hrs := fun x hx => hw x (List.mem_cons_of_mem r hx)
      simp only [summarizeAux]
      rcases hr with h | h
      · rw [h, if_pos rfl, ih hrs]
        show acc.1 + 1 + acc.2.1 + rs.length = acc.1 + acc.2.1 + (r :: rs).length
        simp only [List.length_cons]
        omega
      · rw [h, if_neg (by decide), if_pos rfl, ih hrs]
        show acc.1 + (acc.2.1 + 1) + rs.length = acc.1 + acc.2.1 + (r :: rs).length
        simp only [List.length_cons]
        omega

/-- Claim C7: on every well-formed ledger — each data row's normalised
estado is OK or ERROR, the only two values the program writes — the ok
count plus the error count computed by summarize_log equals the number of
data rows after the header. -/
theorem claim_C7_ok_plus_error_counts_rows (rows : List CsvRow)
    (hw : ∀ r ∈ rows, normEstado r = "OK".data ∨ normEstado r = "ERROR".data) :
    (summarize_log rows).1 + (summarize_log rows).2.1 = rows.length := by
  have h := summarizeAux_count rows hw (0, 0, [])
  simpa [summarize_log] using h

/-- Claim C7 witness: a two-row ledger whose states normalise to OK and
ERROR has ok + error = 2. -/
theorem claim_C7_witness :
    (summarize_log [⟨"OK".data, "AUTO-9.pdf".data⟩, ⟨" error ".data, "x".data⟩]).1 +
      (summarize_log [⟨"OK".data, "AUTO-9.pdf".data⟩, ⟨" error ".data, "x".data⟩]).2.1 = 2 :=
  claim_C7_ok_plus_error_counts_rows _ (by decide)

/-- Claim C8: the four-row ledger [OK "AUTO-123.pdf", OK "AUTO-456.pdf",
OK "SENT_789.pdf", ERROR ""] summarises to ok=3, error=1 and the prefix
counts AUTO=2, SENT=1, the bucket key of an OK row being its filename's
leading non-digit run trimmed of separators, upper-cased, with the empty
result replaced by OTRO. -/
theorem claim_C8_concrete_summary :
    summarize_log [⟨"OK".data, "AUTO-123.pdf".data⟩, ⟨"OK".data, "AUTO-456.pdf".data⟩,
      ⟨"OK".data, "SENT_789.pdf".data⟩, ⟨"ERROR".data, []⟩] =
      (3, 1, [("AUTO".data, 2), ("SENT".data, 1)]) ∧
    bucketOf "AUTO-123.pdf".data = "AUTO".data ∧
    bucketOf "SENT_789.pdf".data = "SENT".data ∧
    bucketOf [] = "OTRO".data := by
  decide

/-! ### Document Resolver claims -/

/-- Claim C5: a direct-fetch response whose body does not begin with the
%PDF magic bytes is never treated as strategy-1 success: save_download
writes nothing from that response and returns exactly what the
triggered-download fallback strategy returns. -/
theorem claim_C5_no_magic_falls_back (fs : List (List Char)) (e : DlEnv) (idx : Nat)
    (h : startsWithL "%PDF".data e.body = false) :
    save_download fs e idx = strat2 fs e idx := by
  simp [save_download, h]

/-- Claim C5 witness: with the HTML-body world the Resolver's result is
the fallback strategy's result, here the fallback download
"respaldo.pdf". -/
theorem claim_C5_witness :
    startsWithL "%PDF".data dlHtml.body = false ∧
    save_download [] dlHtml 4 = strat2 [] dlHtml 4 ∧
    strat2 [] dlHtml 4 = some "respaldo.pdf".data :=
  ⟨by decide, claim_C5_no_magic_falls_back [] dlHtml 4 (by decide), by decide⟩

/-- Claim C6 counterexample: the triggered-download fallback slugs the
browser-suggested name but never forces the document extension: the
suggested name "scan.tiff" is written as "scan.tiff", which does not end
in ".pdf". -/
theorem claim_C6_counterexample :
    save_download [] dlScan 7 = some "scan.tiff".data ∧
    endsWithL ".pdf".data "scan.tiff".data = false := by
  decide

lemma keepChar_digitChar (n : Nat) : keepChar (digitChar n) = true := by
  have hb : ∀ m, m < 10 → keepChar (Char.ofNat (48 + m)) = true := by decide
  exact hb (n % 10) (Nat.mod_lt n (by omega))

lemma mem_natReprAux_digit {c : Char} :
    ∀ (fuel n : Nat), c ∈ natReprAux fuel n → ∃ m, c = digitChar m := by
  intro fuel
  induction fuel with
  | zero => intro n h; simp [natReprAux] at h
  | succ fuel ih =>
      intro n h
      simp only [natReprAux] at h
      split at h
      · rw [List.mem_singleton] at h
        exact ⟨n, h⟩
      · rw [List.mem_append] at h
        rcases h with h | h
        · exact ih _ h
        · rw [List.mem_singleton] at h
          exact ⟨n, h⟩

lemma keep_of_mem_pad3 {c : Char} {n : Nat} (h : c ∈ pad3 n) : keepChar c = true := by
  unfold pad3 at h
  rw [List.mem_append] at h
  rcases h with h | h
  · rw [List.eq_of_mem_replicate h]
    decide
  · obtain ⟨m, rfl⟩ := mem_natReprAux_digit _ _ h
    exact keepChar_digitChar m

lemma splitExt_append (name : List Char) :
    (splitExt name).1 ++ (splitExt name).2 = name := by
  unfold splitExt
  dsimp only
  split
  · rename_i rest2 heq
    split
    · simp
    · have hsplit := List.takeWhile_append_dropWhile (fun c => decide (c ≠ '.')) name.reverse
      rw [heq] at hsplit
      have h2 := congrArg List.reverse hsplit
      rw [List.reverse_append, List.reverse_reverse, List.reverse_cons,
        List.append_assoc, List.singleton_append] at h2
      exact h2
  · simp

lemma resolveDst_ne_nil {fs : List (List Char)} {fn : List Char} {idx : Nat}
    (hfn : fn ≠ []) : resolveDst fs fn idx ≠ [] := by
  unfold resolveDst
  split
  · simp
  · exact hfn

lemma keep_of_mem_resolveDst {fs : List (List Char)} {fn : List Char} {idx : Nat} {c : Char}
    (hall : ∀ x ∈ fn, keepChar x = true) (hc : c ∈ resolveDst fs fn idx) :
    keepChar c = true := by
  unfold resolveDst at hc
  split at hc
  · rw [List.mem_append] at hc
    rcases hc with hc | hc
    · exact hall c (by rw [← splitExt_append fn]; exact List.mem_append.mpr (Or.inl hc))
    · rw [List.mem_cons] at hc
      rcases hc with rfl | hc
      · decide
      · rw [List.mem_append] at hc
        rcases hc with hc | hc
        · exact keep_of_mem_pad3 hc
        · exact hall c (by rw [← splitExt_append fn]; exact List.mem_append.mpr (Or.inr hc))
  · exact hall c hc

lemma strat2_slug {fs : List (List Char)} {e : DlEnv} {idx : Nat} {dst : List Char}
    (h : strat2 fs e idx = some dst) :
    ∃ n0, dst = resolveDst fs (slugify n0) idx := by
  unfold strat2 at h
  split at h
  · cases h
  · injection h with h
    exact ⟨_, h.symm⟩

/-- Claim C6 as amended: every destination filename produced by either
strategy is the collision-resolved image of a Slug-Encoder output — hence
nonempty and made only of word characters, dots and hyphens — and
strategy 1 appends ".pdf" to its source name when missing
case-insensitively; but the fallback strategy applies no extension
forcing, so the final name need not end in ".pdf". -/
theorem claim_C6_amended_slug_applied (fs : List (List Char)) (e : DlEnv) (idx : Nat)
    (dst : List Char) (h : save_download fs e idx = some dst) :
    (∃ n0, dst = resolveDst fs (slugify n0) idx) ∧
    dst ≠ [] ∧ ∀ c ∈ dst, keepChar c = true := by
  have hex : ∃ n0, dst = resolveDst fs (slugify n0) idx := by
    unfold save_download at h
    split at h
    · split at h
      · injection h with h
        exact ⟨_, h.symm⟩
      · exact strat2_slug h
    · exact strat2_slug h
  obtain ⟨n0, rfl⟩ := hex
  refine ⟨⟨n0, rfl⟩, resolveDst_ne_nil (slugify_ne_nil n0), ?_⟩
  intro c hc
  exact keep_of_mem_resolveDst (fun x hx => keep_of_mem_slugify hx) hc

/-- Claim C6 amended witness: the written fallback name "scan.tiff" is a
collision-resolved slug image, nonempty and slug-safe. -/
theorem claim_C6_amended_witness :
    (∃ n0, "scan.tiff".data = resolveDst [] (slugify n0) 7) ∧
    "scan.tiff".data ≠ [] ∧ ∀ c ∈ "scan.tiff".data, keepChar c = true :=
  claim_C6_amended_slug_applied [] dlScan 7 ("scan.tiff".data) (by decide)

/-! ### Collision handling (claim C3) -/

lemma digitsToNat_append_singleton (l : List Char) (c : Char) :
    digitsToNat (l ++ [c]) = 10 * digitsToNat l + (c.toNat - 48) := by
  unfold digitsToNat
  rw [List.foldl_append]
  simp only [List.foldl_cons, List.foldl_nil]
  omega

lemma dval_digitChar (n : Nat) : (digitChar n).toNat - 48 = n % 10 := by
  have hb : ∀ m, m < 10 → (Char.ofNat (48 + m)).toNat - 48 = m := by decide
  exact hb (n % 10) (Nat.mod_lt n (by omega))

lemma digitsToNat_singleton (c : Char) : digitsToNat [c] = c.toNat - 48 := by
  unfold digitsToNat
  simp

lemma digitsToNat_natReprAux :
    ∀ (fuel n : Nat), n < fuel → digitsToNat (natReprAux fuel n) = n := by
  intro fuel
  induction fuel with
  | zero => intro n h; omega
  | succ fuel ih =>
      intro n h
      simp only [natReprAux]
      split
      · rename_i h10
        rw [digitsToNat_singleton, dval_digitChar]
        omega
      · rename_i h10
        have hdiv : n / 10 < n := Nat.div_lt_self (by omega) (by omega)
        rw [digitsToNat_append_singleton, ih (n / 10) (by omega), dval_digitChar]
        omega

lemma digitsToNat_replicate_zero_append (k : Nat) (l : List Char) :
    digitsToNat (List.replicate k '0' ++ l) = digitsToNat l := by
  induction k with
  | zero => rfl
  | succ k ih =>
      rw [List.replicate_succ, List.cons_append]
      show digitsToNat (List.replicate k '0' ++ l) = digitsToNat l
      exact ih

lemma digitsToNat_pad3 (n : Nat) : digitsToNat (pad3 n) = n := by
  unfold pad3 natRepr
  rw [digitsToNat_replicate_zero_append]
  exact digitsToNat_natReprAux (n + 1) n (by omega)

lemma pad3_inj {i j : Nat} (h : pad3 i = pad3 j) : i = j := by
  have h2 := congrArg digitsToNat h
  rwa [digitsToNat_pad3, digitsToNat_pad3] at h2

lemma save_download_strat2_collision {fs : List (List Char)} {e : DlEnv} {s : List Char}
    {idx : Nat} (hh : e.href = []) (hd : e.download = some s) (hs : s ≠ [])
    (hmem : slugify s ∈ fs) :
    save_download fs e idx =
      some ((splitExt (slugify s)).1 ++ '_' :: (pad3 idx ++ (splitExt (slugify s)).2)) := by
  unfold save_download
  rw [if_neg (by rw [hh]; simp)]
  unfold strat2
  rw [hd]
  dsimp only
  rw [if_neg hs]
  unfold resolveDst
  rw [if_pos hmem]

lemma save_download_strat2_fresh {fs : List (List Char)} {e : DlEnv} {s : List Char}
    {idx : Nat} (hh : e.href = []) (hd : e.download = some s) (hs : s ≠ [])
    (hmem : slugify s ∉ fs) :
    save_download fs e idx = some (slugify s) := by
  unfold save_download
  rw [if_neg (by rw [hh]; simp)]
  unfold strat2
  rw [hd]
  dsimp only
  rw [if_neg hs]
  unfold resolveDst
  rw [if_neg hmem]

lemma runJob_same_name (e : DlEnv) (s : List Char)
    (hh : e.href = []) (hd : e.download = some s) (hs : s ≠ []) :
    ∀ (k : Nat) (idx : Nat) (fs : List (List Char)), slugify s ∈ fs →
      runJob fs (List.replicate k e) idx =
        (List.range' idx k).map
          (fun i => (splitExt (slugify s)).1 ++ '_' ::
            (pad3 i ++ (splitExt (slugify s)).2)) := by
  intro k
  induction k with
  | zero => intro idx fs hmem; rfl
  | succ k ih =>
      intro idx fs hmem
      rw [List.replicate_succ, List.range'_succ]
      simp only [runJob]
      rw [save_download_strat2_collision hh hd hs hmem]
      dsimp only
      rw [List.map_cons, ih (idx + 1) _ (List.mem_cons_of_mem _ hmem)]

/-- Claim C3 counterexample: suggested names "a.pdf", "a_003.pdf", "a.pdf"
at indices 1..3 into an initially empty directory produce the written
paths "a.pdf", "a_003.pdf", "a_003.pdf": the collision rename of index 3
coincides with the path written directly at index 2, so the destination
paths written in one job are not pairwise distinct. -/
theorem claim_C3_counterexample :
    runJob [] [dlA, dlA003, dlA] 1 =
      ["a.pdf".data, "a_003.pdf".data, "a_003.pdf".data] ∧
    ¬ (runJob [] [dlA, dlA003, dlA] 1).Nodup := by
  decide

/-- Claim C3 as amended: the repeated-collision case is safe — when every
index of the job suggests the same nonempty name and the slugged name is
not already present, the first write keeps the slugged name, every later
write gets the _<idx:03> insertion, and all written paths are pairwise
distinct.  (Unconditional pairwise distinctness fails: a renamed path can
coincide with an earlier direct write whose name already carried the
rename suffix, as the counterexample shows.) -/
theorem claim_C3_amended_identical_names_distinct (e : DlEnv) (s : List Char)
    (fs0 : List (List Char)) (n : Nat)
    (hh : e.href = []) (hd : e.download = some s) (hs : s ≠ [])
    (hf : slugify s ∉ fs0) :
    (runJob fs0 (List.replicate n e) 1).Nodup := by
  cases n with
  | zero => simp [runJob]
  | succ n =>
      rw [List.replicate_succ]
      simp only [runJob]
      rw [save_download_strat2_fresh hh hd hs hf]
      dsimp only
      rw [runJob_same_name e s hh hd hs n 2 _ (List.mem_cons_self _ _)]
      rw [List.nodup_cons]
      constructor
      · intro hmem
        rw [List.mem_map] at hmem
        obtain ⟨i, hi, heq⟩ := hmem
        have hlen := congrArg List.length heq
        have hsp := congrArg List.length (splitExt_append (slugify s))
        simp only [List.length_append, List.length_cons] at hlen hsp
        omega
      · apply List.Nodup.map_on
        · intro x hx y hy hxy
          have h1 := List.append_cancel_left hxy
          injection h1 with h1a h2
          have hlen : (pad3 x).length = (pad3 y).length := by
            have h3 := congrArg List.length h2
            simp only [List.length_append] at h3
            omega
          exact pad3_inj (List.append_inj h2 hlen).1
        · exact List.nodup_range' 2 n

/-- Claim C3 amended witness: three identical suggestions "acta.pdf" into
an empty directory yield pairwise distinct written paths. -/
theorem claim_C3_amended_witness :
    (runJob [] (List.replicate 3 dlActa) 1).Nodup :=
  claim_C3_amended_identical_names_distinct dlActa ("acta.pdf".data) [] 3 rfl rfl
    (by decide) (by decide)

/-! ### Month Runner loop (claim C2) -/

/-- Claim C2: the Month Runner loop is process-then-check: after appending
the row's ledger record it parses (current, total) from the re-read
position text, and whenever current ≥ total it exits at once — exactly
that one record is appended from this iteration on, the loop terminates,
and the advance operation is not invoked again. -/
theorem claim_C2_terminal_position_stops_loop (env : Nat → RowEnv) (fuel idx : Nat)
    (fs : List (List Char)) (c t : Nat)
    (hp : parsePos (env idx).posAfter = some (c, t)) (hct : t ≤ c) :
    run_month_loop env (fuel + 1) idx fs = ([mkRecord fs (env idx) idx], 0, true) := by
  simp only [run_month_loop]
  rw [hp]
  dsimp only
  rw [if_pos (decide_eq_true hct)]

/-- Claim C2 witness: on the single-result page reporting "1 / 1", the
loop appends exactly one ledger record, terminates, and never invokes the
advance operation. -/
theorem claim_C2_witness :
    run_month_loop envSingle 5 1 [] = ([mkRecord [] (envSingle 1) 1], 0, true) ∧
    (run_month_loop envSingle 5 1 []).1.length = 1 := by
  have h : run_month_loop envSingle 5 1 [] = ([mkRecord [] (envSingle 1) 1], 0, true) :=
    claim_C2_terminal_position_stops_loop envSingle 4 1 [] 1 1 (by decide) (by omega)
  exact ⟨h, by simp [h]⟩

end Descargas
